import Mathlib

/-!
Verification of the graph synthesis and graph-traversal engine of the
sgmm-api repository (app/services/graph_service.py, rag_service.py,
node_chat_service.py, node_quiz_service.py) against its specification.

Graph nodes are Python dicts with keys id, title, description, layer,
relevance, children; layer and relevance are read with dict.get and a
default of 0, so they are modelled as Option Int.  The language-model
completion call and the JSON decoder (json.loads) are external black
boxes; they are modelled as explicit parameters (an outcome value for the
completion, a fallible parse function for the decoder).
-/

/-- GraphNode models the node dictionaries manipulated by the services:
keys id, title, description (always present where the services read them),
layer and relevance (read via dict.get with default 0, hence optional),
and the list of children (a missing children key behaves like an empty
list in every traversal). -/
inductive GraphNode where
  | mk (id : String) (title : String) (description : String)
      (layer : Option Int) (relevance : Option Int)
      (children : List GraphNode)

/-- Accessor for the id field. -/
def GraphNode.id : GraphNode → String
  | .mk i _ _ _ _ _ => i

/-- Accessor for the title field. -/
def GraphNode.title : GraphNode → String
  | .mk _ t _ _ _ _ => t

/-- Accessor for the description field. -/
def GraphNode.description : GraphNode → String
  | .mk _ _ d _ _ _ => d

/-- Accessor for the optional layer field. -/
def GraphNode.layer : GraphNode → Option Int
  | .mk _ _ _ l _ _ => l

/-- Accessor for the optional relevance field. -/
def GraphNode.relevance : GraphNode → Option Int
  | .mk _ _ _ _ r _ => r

/-- Accessor for the children list. -/
def GraphNode.children : GraphNode → List GraphNode
  | .mk _ _ _ _ _ cs => cs

/-- Value of node.get("layer", 0) as used by the layer filter. -/
def GraphNode.layerVal (n : GraphNode) : Int := n.layer.getD 0

/-- Value of node.get("relevance", 0) as used by the relevance filter. -/
def GraphNode.relevanceVal (n : GraphNode) : Int := n.relevance.getD 0

mutual
/-- Structural rank of a node, used to derive an induction principle for
the nested inductive type. -/
def nodeRank : GraphNode → Nat
  | .mk _ _ _ _ _ cs => listRank cs + 1
/-- Structural rank of a list of nodes. -/
def listRank : List GraphNode → Nat
  | [] => 0
  | c :: cs => nodeRank c + listRank cs
end

theorem rank_le_of_mem {c : GraphNode} {cs : List GraphNode} (h : c ∈ cs) :
    nodeRank c ≤ listRank cs := by
  induction cs with
  | nil => cases h
  | cons x xs ih =>
    rcases List.mem_cons.mp h with h1 | h2
    · subst h1; simp [listRank]
    · have := ih h2; simp [listRank]; omega

/-- Induction principle for GraphNode: to prove a property of every node
it suffices to prove it for a node assuming it for all of its children. -/
theorem GraphNode.inductionOn (P : GraphNode → Prop)
    (h : ∀ i t d l r cs, (∀ c ∈ cs, P c) → P (GraphNode.mk i t d l r cs))
    (n : GraphNode) : P n := by
  have key : ∀ k m, nodeRank m ≤ k → P m := by
    intro k
    induction k with
    | zero =>
      intro m hm
      cases m with
      | mk i t d l r cs => simp [nodeRank] at hm
    | succ k ih =>
      intro m hm
      cases m with
      | mk i t d l r cs =>
        apply h
        intro c hc
        apply ih
        have h1 := rank_le_of_mem hc
        simp [nodeRank] at hm
        omega
  exact key (nodeRank n) n le_rfl

mutual
/-- All nodes of the subtree rooted at a node, in depth-first pre-order
(the order in which every recursive traversal in the services visits
them). -/
def subtreeNodes : GraphNode → List GraphNode
  | .mk i t d l r cs => .mk i t d l r cs :: subtreeNodesL cs
/-- All nodes of the subtrees rooted at a list of nodes. -/
def subtreeNodesL : List GraphNode → List GraphNode
  | [] => []
  | c :: cs => subtreeNodes c ++ subtreeNodesL cs
end

/-- Ids of all nodes of the subtree rooted at a node, in pre-order. -/
def subtreeIds (n : GraphNode) : List String := (subtreeNodes n).map GraphNode.id

theorem mem_subtreeNodesL_of_mem {c : GraphNode} {cs : List GraphNode}
    {x : GraphNode} (hc : c ∈ cs) (hx : x ∈ subtreeNodes c) :
    x ∈ subtreeNodesL cs := by
  induction cs with
  | nil => cases hc
  | cons y ys ih =>
    rcases List.mem_cons.mp hc with h1 | h2
    · subst h1; simp [subtreeNodesL]; exact Or.inl hx
    · simp [subtreeNodesL]; exact Or.inr (by simpa using ih h2)

theorem self_mem_subtreeNodes (n : GraphNode) : n ∈ subtreeNodes n := by
  cases n with
  | mk i t d l r cs => simp [subtreeNodes]

/-- Chain T p N states that p is the chain of nodes from the root T down
to the node N inside the tree T, following child links; it is the
ancestor path of N (inclusive of both ends). -/
inductive Chain : GraphNode → List GraphNode → GraphNode → Prop
  | refl (n : GraphNode) : Chain n [n] n
  | step (n c : GraphNode) (p : List GraphNode) (m : GraphNode)
      (hc : c ∈ n.children) (h : Chain c p m) : Chain n (n :: p) m

theorem Chain.mem_subtree {n : GraphNode} {p : List GraphNode} {m : GraphNode}
    (h : Chain n p m) : m ∈ subtreeNodes n := by
  induction h with
  | refl n => exact self_mem_subtreeNodes n
  | step n c p m hc hch ih =>
    cases n with
    | mk i t d l r cs =>
      simp [subtreeNodes]
      exact Or.inr (mem_subtreeNodesL_of_mem (by simpa [GraphNode.children] using hc) ih)

theorem Chain.ne_nil {n : GraphNode} {p : List GraphNode} {m : GraphNode}
    (h : Chain n p m) : p ≠ [] := by
  cases h <;> simp

theorem Chain.head_eq {n : GraphNode} {p : List GraphNode} {m : GraphNode}
    (h : Chain n p m) : p.head? = some n := by
  cases h <;> rfl

theorem Chain.getLast_eq {n : GraphNode} {p : List GraphNode} {m : GraphNode}
    (h : Chain n p m) : p.getLast? = some m := by
  induction h with
  | refl n => rfl
  | step n c p m hc hch ih =>
    rw [List.getLast?_cons, ih]
    cases p with
    | nil => cases hch.ne_nil rfl
    | cons x xs => simp [List.getLast?_cons]

mutual
/-- Translation of GraphService._filter_graph_by_layer (graph_service.py
lines 151-183): copy the node, drop it (return None) when its layer field
(default 0) exceeds the target layer, otherwise keep it with its children
recursively filtered; falsy (dropped) children are not appended. -/
def filter_graph_by_layer : GraphNode → Int → Option GraphNode
  | .mk i t d l r cs, target_layer =>
    if l.getD 0 > target_layer then none
    else some (.mk i t d l r (filter_children_by_layer cs target_layer))
/-- Child-list part of the layer filter: the loop over node["children"]
that keeps the truthy recursive results, in order. -/
def filter_children_by_layer : List GraphNode → Int → List GraphNode
  | [], _ => []
  | c :: cs, target_layer =>
    match filter_graph_by_layer c target_layer with
    | some fc => fc :: filter_children_by_layer cs target_layer
    | none => filter_children_by_layer cs target_layer
end

mutual
/-- Translation of GraphService._filter_graph_by_relevance
(graph_service.py lines 214-246): drop the node (return None) when its
relevance field (default 0) is strictly below min_relevance, otherwise
keep it with its children recursively filtered. -/
def filter_graph_by_relevance : GraphNode → Int → Option GraphNode
  | .mk i t d l r cs, min_relevance =>
    if r.getD 0 < min_relevance then none
    else some (.mk i t d l r (filter_children_by_relevance cs min_relevance))
/-- Child-list part of the relevance filter. -/
def filter_children_by_relevance : List GraphNode → Int → List GraphNode
  | [], _ => []
  | c :: cs, min_relevance =>
    match filter_graph_by_relevance c min_relevance with
    | some fc => fc :: filter_children_by_relevance cs min_relevance
    | none => filter_children_by_relevance cs min_relevance
end

/-- Translation of the filtering logic of GraphService.get_filtered_graph
(graph_service.py lines 185-212): the minimum relevance threshold
defaults to 5 and is overridden by a min_relevance entry in the context
parameters; the graph is then filtered by relevance.  The database load
of the graph by id is external and is modelled by passing the graph data
directly; the int() coercion of the parameter is modelled by typing the
parameter map values as Int. -/
def get_filtered_graph (graph_data : GraphNode)
    (context_params : Option (List (String × Int))) : Option GraphNode :=
  let min_relevance : Int :=
    match context_params with
    | some ps =>
      match ps.lookup "min_relevance" with
      | some v => v
      | none => 5
    | none => 5
  filter_graph_by_relevance graph_data min_relevance

mutual
/-- Generic tree pruning with a keep predicate: both service filters are
instances of this shape (see filter_graph_by_layer_eq_prune and
filter_graph_by_relevance_eq_prune). -/
def prune (keep : GraphNode → Bool) : GraphNode → Option GraphNode
  | .mk i t d l r cs =>
    if keep (.mk i t d l r cs) then some (.mk i t d l r (pruneL keep cs))
    else none
/-- Child-list part of the generic pruning. -/
def pruneL (keep : GraphNode → Bool) : List GraphNode → List GraphNode
  | [] => []
  | c :: cs =>
    match prune keep c with
    | some fc => fc :: pruneL keep cs
    | none => pruneL keep cs
end

theorem filter_graph_by_layer_eq_prune (target : Int) (n : GraphNode) :
    filter_graph_by_layer n target =
      prune (fun m => decide (m.layerVal ≤ target)) n := by
  induction n using GraphNode.inductionOn with
  | h i t d l r cs ih =>
    have hcs : filter_children_by_layer cs target =
        pruneL (fun m => decide (m.layerVal ≤ target)) cs := by
      induction cs with
      | nil => simp [filter_children_by_layer, pruneL]
      | cons c cs' ihl =>
        have hc := ih c (by simp)
        have hrest : ∀ c' ∈ cs', filter_graph_by_layer c' target =
            prune (fun m => decide (m.layerVal ≤ target)) c' := by
          intro c' hc'; exact ih c' (by simp [hc'])
        simp [filter_children_by_layer, pruneL, hc, ihl hrest]
    rcases le_or_lt (l.getD 0) target with h | h
    · simp [filter_graph_by_layer, prune, GraphNode.layerVal, GraphNode.layer, hcs, h,
        not_lt.mpr h]
    · simp [filter_graph_by_layer, prune, GraphNode.layerVal, GraphNode.layer, hcs, h,
        not_le.mpr h]

theorem filter_graph_by_relevance_eq_prune (minRel : Int) (n : GraphNode) :
    filter_graph_by_relevance n minRel =
      prune (fun m => decide (minRel ≤ m.relevanceVal)) n := by
  induction n using GraphNode.inductionOn with
  | h i t d l r cs ih =>
    have hcs : filter_children_by_relevance cs minRel =
        pruneL (fun m => decide (minRel ≤ m.relevanceVal)) cs := by
      induction cs with
      | nil => simp [filter_children_by_relevance, pruneL]
      | cons c cs' ihl =>
        have hc := ih c (by simp)
        have hrest : ∀ c' ∈ cs', filter_graph_by_relevance c' minRel =
            prune (fun m => decide (minRel ≤ m.relevanceVal)) c' := by
          intro c' hc'; exact ih c' (by simp [hc'])
        simp [filter_children_by_relevance, pruneL, hc, ihl hrest]
    rcases le_or_lt minRel (r.getD 0) with h | h
    · simp [filter_graph_by_relevance, prune, GraphNode.relevanceVal, GraphNode.relevance,
        hcs, h, not_lt.mpr h]
    · simp [filter_graph_by_relevance, prune, GraphNode.relevanceVal, GraphNode.relevance,
        hcs, h, not_le.mpr h]

theorem mem_subtreeNodesL_iff {cs : List GraphNode} {x : GraphNode} :
    x ∈ subtreeNodesL cs ↔ ∃ c ∈ cs, x ∈ subtreeNodes c := by
  induction cs with
  | nil => simp [subtreeNodesL]
  | cons c cs' ih =>
    simp [subtreeNodesL, ih]

theorem mem_pruneL_iff {keep : GraphNode → Bool} {cs : List GraphNode}
    {fc : GraphNode} :
    fc ∈ pruneL keep cs ↔ ∃ c ∈ cs, prune keep c = some fc := by
  induction cs with
  | nil => simp [pruneL]
  | cons c cs' ih =>
    cases hp : prune keep c with
    | none =>
      simp only [pruneL, hp, ih, List.mem_cons]
      constructor
      · rintro ⟨c', hc', h'⟩; exact ⟨c', Or.inr hc', h'⟩
      · rintro ⟨c', hc' | hc', h'⟩
        · subst hc'; rw [hp] at h'; simp at h'
        · exact ⟨c', hc', h'⟩
    | some fc' =>
      simp only [pruneL, hp, List.mem_cons, ih]
      constructor
      · rintro (h | ⟨c', hc', h'⟩)
        · subst h; exact ⟨c, Or.inl rfl, hp⟩
        · exact ⟨c', Or.inr hc', h'⟩
      · rintro ⟨c', hc' | hc', h'⟩
        · subst hc'; rw [hp] at h'; simp at h'; exact Or.inl h'.symm
        · exact Or.inr ⟨c', hc', h'⟩

theorem prune_eq_some_iff {keep : GraphNode → Bool} {i t d : String}
    {l r : Option Int} {cs : List GraphNode} {res : Option GraphNode} :
    prune keep (.mk i t d l r cs) = res →
    (keep (.mk i t d l r cs) = true →
      res = some (.mk i t d l r (pruneL keep cs))) ∧
    (keep (.mk i t d l r cs) = false → res = none) := by
  intro h
  constructor
  · intro hk; rw [← h]; simp [prune, hk]
  · intro hk; rw [← h]; simp [prune, hk]

theorem prune_some_of_keep {keep : GraphNode → Bool} {n : GraphNode}
    (hk : keep n = true) :
    prune keep n = some (.mk n.id n.title n.description n.layer n.relevance
      (pruneL keep n.children)) := by
  cases n with
  | mk i t d l r cs =>
    simp [prune, hk, GraphNode.id, GraphNode.title, GraphNode.description,
      GraphNode.layer, GraphNode.relevance, GraphNode.children]

theorem prune_none_of_not_keep {keep : GraphNode → Bool} {n : GraphNode}
    (hk : keep n = false) : prune keep n = none := by
  cases n with
  | mk i t d l r cs => simp [prune, hk]

theorem keep_of_prune_some {keep : GraphNode → Bool} {n : GraphNode}
    {res : GraphNode} (h : prune keep n = some res) : keep n = true := by
  cases n with
  | mk i t d l r cs =>
    by_contra hk
    simp [prune, Bool.not_eq_true] at hk h
    rw [hk] at h
    simp at h

/-- FieldPred keep states that the keep predicate reads only the scalar
fields of a node, never its children; both service filters satisfy it. -/
def FieldPred (keep : GraphNode → Bool) : Prop :=
  ∀ i t d l r cs cs', keep (.mk i t d l r cs) = keep (.mk i t d l r cs')

theorem prune_subtree_keep {keep : GraphNode → Bool} (hf : FieldPred keep) :
    ∀ n res, prune keep n = some res → ∀ m ∈ subtreeNodes res, keep m = true := by
  intro n
  induction n using GraphNode.inductionOn with
  | h i t d l r cs ih =>
    intro res hres m hm
    have hk : keep (.mk i t d l r cs) = true := keep_of_prune_some hres
    have hres' : res = .mk i t d l r (pruneL keep cs) := by
      have := (prune_eq_some_iff hres).1 hk
      simp at this
      exact this
    subst hres'
    simp only [subtreeNodes, List.mem_cons] at hm
    rcases hm with hm | hm
    · subst hm; rw [hf i t d l r _ cs]; exact hk
    · rcases mem_subtreeNodesL_iff.mp hm with ⟨fc, hfc, hmfc⟩
      rcases mem_pruneL_iff.mp hfc with ⟨c, hc, hpc⟩
      exact ih c hc fc hpc m hmfc

theorem prune_ids_complete {keep : GraphNode → Bool} :
    ∀ n res, prune keep n = some res → ∀ s, s ∈ subtreeIds res →
      ∃ p m, Chain n p m ∧ m.id = s ∧ ∀ x ∈ p, keep x = true := by
  intro n
  induction n using GraphNode.inductionOn with
  | h i t d l r cs ih =>
    intro res hres s hs
    have hk : keep (.mk i t d l r cs) = true := keep_of_prune_some hres
    have hres' : res = .mk i t d l r (pruneL keep cs) := by
      have := (prune_eq_some_iff hres).1 hk
      simp at this
      exact this
    subst hres'
    simp only [subtreeIds, List.mem_map] at hs
    rcases hs with ⟨x, hx, hxid⟩
    simp only [subtreeNodes, List.mem_cons] at hx
    rcases hx with hx | hx
    · subst hx
      refine ⟨[GraphNode.mk i t d l r cs], GraphNode.mk i t d l r cs,
        Chain.refl _, ?_, ?_⟩
      · simpa [GraphNode.id] using hxid
      · intro y hy; simp at hy; subst hy; exact hk
    · rcases mem_subtreeNodesL_iff.mp hx with ⟨fc, hfc, hxfc⟩
      rcases mem_pruneL_iff.mp hfc with ⟨c, hc, hpc⟩
      have hxin : s ∈ subtreeIds fc := by
        simp only [subtreeIds, List.mem_map]
        exact ⟨x, hxfc, hxid⟩
      rcases ih c hc fc hpc s hxin with ⟨p, m, hchain, hmid, hall⟩
      refine ⟨GraphNode.mk i t d l r cs :: p, m,
        Chain.step _ c p m (by simpa [GraphNode.children] using hc) hchain,
        hmid, ?_⟩
      intro y hy
      rcases List.mem_cons.mp hy with hy | hy
      · subst hy; exact hk
      · exact hall y hy

theorem prune_ids_sound {keep : GraphNode → Bool} {n : GraphNode}
    {p : List GraphNode} {m : GraphNode} (hchain : Chain n p m)
    (hall : ∀ x ∈ p, keep x = true) :
    ∀ res, prune keep n = some res → m.id ∈ subtreeIds res := by
  induction hchain with
  | refl n =>
    intro res hres
    cases n with
    | mk i t d l r cs =>
      have hk : keep (.mk i t d l r cs) = true := keep_of_prune_some hres
      have hres' : res = .mk i t d l r (pruneL keep cs) := by
        have := (prune_eq_some_iff hres).1 hk
        simp at this
        exact this
      subst hres'
      simp [subtreeIds, subtreeNodes, GraphNode.id]
  | step n c p m hc hch ih =>
    intro res hres
    have hkc : keep c = true := by
      apply hall
      have := hch.head_eq
      cases p with
      | nil => cases hch.ne_nil rfl
      | cons x xs =>
        simp [List.head?] at this
        subst this
        simp
    have hpc := prune_some_of_keep hkc
    have hmid := ih (fun x hx => hall x (List.mem_cons_of_mem _ hx)) _ hpc
    cases n with
    | mk i t d l r cs =>
      have hk : keep (.mk i t d l r cs) = true :=
        hall _ (List.mem_cons_self _ _)
      have hres' : res = .mk i t d l r (pruneL keep cs) := by
        have := (prune_eq_some_iff hres).1 hk
        simp at this
        exact this
      subst hres'
      simp only [subtreeIds, List.mem_map] at hmid ⊢
      rcases hmid with ⟨x, hx, hxid⟩
      refine ⟨x, ?_, hxid⟩
      simp only [subtreeNodes, List.mem_cons]
      right
      apply mem_subtreeNodesL_iff.mpr
      refine ⟨_, mem_pruneL_iff.mpr ⟨c, by simpa [GraphNode.children] using hc, hpc⟩, hx⟩

/-- NodeInfo models the dictionary returned by extract_node_details: the
found node, the path from the root to it, and its level.  The examples
entry added by generate_examples_for_node is produced by a language-model
black box orthogonal to the lookup logic and is not modelled. -/
structure NodeInfo where
  node : GraphNode
  path : List GraphNode
  level : Nat

mutual
/-- Translation of the inner recursive helper find_node of
GraphService.extract_node_details (graph_service.py lines 292-312):
depth-first search returning the first node whose id matches, together
with the accumulated path plus the node itself and the level. -/
def find_node (node_id : String) : GraphNode → List GraphNode → Nat → Option NodeInfo
  | .mk i t d l r cs, path, level =>
    if i = node_id then some ⟨.mk i t d l r cs, path ++ [.mk i t d l r cs], level⟩
    else find_node_in_children node_id cs (path ++ [.mk i t d l r cs]) (level + 1)
/-- Loop over the children inside find_node: return the first non-None
recursive result. -/
def find_node_in_children (node_id : String) :
    List GraphNode → List GraphNode → Nat → Option NodeInfo
  | [], _, _ => none
  | c :: cs, path, level =>
    match find_node node_id c path level with
    | some res => some res
    | none => find_node_in_children node_id cs path level
end

/-- Translation of GraphService.extract_node_details (graph_service.py
lines 267-319): the root is checked first and returned with path
[root] and level 0; otherwise the recursive find_node helper is started
from the root with an empty path and level 0. -/
def extract_node_details (graph_data : GraphNode) (node_id : String) :
    Option NodeInfo :=
  if graph_data.id = node_id then some ⟨graph_data, [graph_data], 0⟩
  else find_node node_id graph_data [] 0

theorem find_children_none {tid : String} {cs : List GraphNode}
    (h : ∀ c ∈ cs, ∀ path level, find_node tid c path level = none) :
    ∀ path level, find_node_in_children tid cs path level = none := by
  induction cs with
  | nil => intro path level; simp [find_node_in_children]
  | cons c cs' ih =>
    intro path level
    have hc := h c (List.mem_cons_self c cs') path level
    simp only [find_node_in_children, hc]
    exact ih (fun c' hc' pl lv => h c' (List.mem_cons_of_mem c hc') pl lv) path level

theorem find_node_none {tid : String} :
    ∀ n, (∀ m ∈ subtreeNodes n, m.id ≠ tid) →
      ∀ path level, find_node tid n path level = none := by
  intro n
  induction n using GraphNode.inductionOn with
  | h i t d l r cs ih =>
    intro habs path level
    have hroot : ¬ (i = tid) := by
      have := habs (.mk i t d l r cs) (self_mem_subtreeNodes _)
      simpa [GraphNode.id] using this
    simp only [find_node, if_neg hroot]
    apply find_children_none
    intro c hc pl lv
    apply ih c hc
    intro m hm
    apply habs m
    simp only [subtreeNodes, List.mem_cons]
    exact Or.inr (mem_subtreeNodesL_of_mem hc hm)

theorem find_children_chain {tid : String} {m : GraphNode}
    {p : List GraphNode} :
    ∀ cs : List GraphNode,
      ((subtreeNodesL cs).map GraphNode.id).Nodup →
      ∀ c ∈ cs,
        (∀ path level, find_node tid c path level =
          some ⟨m, path ++ p, level + (p.length - 1)⟩) →
        tid ∈ (subtreeNodes c).map GraphNode.id →
        ∀ path level, find_node_in_children tid cs path level =
          some ⟨m, path ++ p, level + (p.length - 1)⟩ := by
  intro cs
  induction cs with
  | nil => intro _ c hc; cases hc
  | cons x xs ih =>
    intro hnd c hc hfind htid path level
    have hnd' : ((subtreeNodes x).map GraphNode.id).Nodup ∧
        ((subtreeNodesL xs).map GraphNode.id).Nodup ∧
        ((subtreeNodes x).map GraphNode.id).Disjoint
          ((subtreeNodesL xs).map GraphNode.id) := by
      have : subtreeNodesL (x :: xs) = subtreeNodes x ++ subtreeNodesL xs := rfl
      rw [this, List.map_append, List.nodup_append] at hnd
      exact hnd
    rcases List.mem_cons.mp hc with hcx | hcxs
    · subst hcx
      simp only [find_node_in_children, hfind path level]
    · have hnone : find_node tid x path level = none := by
        apply find_node_none
        intro m' hm' hmid
        have h1 : tid ∈ (subtreeNodes x).map GraphNode.id :=
          hmid ▸ List.mem_map_of_mem GraphNode.id hm'
        have h2 : tid ∈ (subtreeNodesL xs).map GraphNode.id := by
          rcases List.mem_map.mp htid with ⟨y, hy, hyid⟩
          exact List.mem_map.mpr ⟨y, mem_subtreeNodesL_of_mem hcxs hy, hyid⟩
        exact hnd'.2.2 h1 h2
      simp only [find_node_in_children, hnone]
      exact ih hnd'.2.1 c hcxs hfind htid path level

theorem nodup_subtree_of_mem {cs : List GraphNode} {c : GraphNode}
    (hc : c ∈ cs) (hnd : ((subtreeNodesL cs).map GraphNode.id).Nodup) :
    ((subtreeNodes c).map GraphNode.id).Nodup := by
  induction cs with
  | nil => cases hc
  | cons x xs ih =>
    have heq : subtreeNodesL (x :: xs) = subtreeNodes x ++ subtreeNodesL xs := rfl
    rw [heq, List.map_append, List.nodup_append] at hnd
    rcases List.mem_cons.mp hc with h | h
    · subst h; exact hnd.1
    · exact ih h hnd.2.1

theorem find_node_chain {n : GraphNode} {p : List GraphNode} {m : GraphNode}
    (hch : Chain n p m) :
    (subtreeIds n).Nodup →
    ∀ path level, find_node m.id n path level =
      some ⟨m, path ++ p, level + (p.length - 1)⟩ := by
  induction hch with
  | refl n =>
    intro hnd path level
    cases n with
    | mk i t d l r cs =>
      simp [find_node, GraphNode.id]
  | step n c p' m hc hch ih =>
    intro hnd path level
    cases n with
    | mk i t d l r cs =>
      have hme : m ∈ subtreeNodes c := hch.mem_subtree
      have hmidin : m.id ∈ (subtreeNodesL cs).map GraphNode.id :=
        List.mem_map.mpr ⟨m,
          mem_subtreeNodesL_of_mem (by simpa [GraphNode.children] using hc) hme, rfl⟩
      have hnd0 : (subtreeIds (GraphNode.mk i t d l r cs)).Nodup := hnd
      have hids : subtreeIds (GraphNode.mk i t d l r cs) =
          i :: (subtreeNodesL cs).map GraphNode.id := by
        simp [subtreeIds, subtreeNodes, GraphNode.id]
      rw [hids, List.nodup_cons] at hnd0
      have hne : ¬ (i = m.id) := fun h => hnd0.1 (h ▸ hmidin)
      simp only [find_node, if_neg hne]
      have hndc : ((subtreeNodes c).map GraphNode.id).Nodup :=
        nodup_subtree_of_mem (by simpa [GraphNode.children] using hc) hnd0.2
      have hfind := ih hndc
      have hstep := find_children_chain cs hnd0.2 c
        (by simpa [GraphNode.children] using hc) hfind
        (List.mem_map.mpr ⟨m, hme, rfl⟩) (path ++ [GraphNode.mk i t d l r cs])
        (level + 1)
      rw [hstep]
      have hlen : 1 ≤ p'.length := List.length_pos.mpr hch.ne_nil
      have harith : level + 1 + (p'.length - 1) =
          level + ((GraphNode.mk i t d l r cs :: p').length - 1) := by
        simp only [List.length_cons]
        omega
      have hpath : (path ++ [GraphNode.mk i t d l r cs]) ++ p' =
          path ++ (GraphNode.mk i t d l r cs :: p') := by
        rw [List.append_assoc]
        rfl
      rw [hpath, harith]

theorem pruneL_of_all_fixed {keep : GraphNode → Bool} :
    ∀ ds : List GraphNode, (∀ fc ∈ ds, prune keep fc = some fc) →
      pruneL keep ds = ds := by
  intro ds
  induction ds with
  | nil => intro _; rfl
  | cons fc ds' ih =>
    intro h
    have h1 := h fc (List.mem_cons_self fc ds')
    simp only [pruneL, h1]
    rw [ih (fun fc' hfc' => h fc' (List.mem_cons_of_mem fc hfc'))]

theorem prune_idem {keep : GraphNode → Bool} (hf : FieldPred keep) :
    ∀ n res, prune keep n = some res → prune keep res = some res := by
  intro n
  induction n using GraphNode.inductionOn with
  | h i t d l r cs ih =>
    intro res hres
    have hk : keep (.mk i t d l r cs) = true := keep_of_prune_some hres
    have hres' : res = .mk i t d l r (pruneL keep cs) := by
      have := (prune_eq_some_iff hres).1 hk
      simp at this
      exact this
    subst hres'
    have hk' : keep (.mk i t d l r (pruneL keep cs)) = true := by
      rw [hf i t d l r _ cs]; exact hk
    have hfix : ∀ fc ∈ pruneL keep cs, prune keep fc = some fc := by
      intro fc hfc
      rcases mem_pruneL_iff.mp hfc with ⟨c, hc, hpc⟩
      exact ih c hc fc hpc
    simp only [prune, hk', if_true]
    rw [pruneL_of_all_fixed _ hfix]

theorem layer_keep_field_pred (target : Int) :
    FieldPred (fun m => decide (m.layerVal ≤ target)) := by
  intro i t d l r cs cs'
  simp [GraphNode.layerVal, GraphNode.layer]

theorem relevance_keep_field_pred (minRel : Int) :
    FieldPred (fun m => decide (minRel ≤ m.relevanceVal)) := by
  intro i t d l r cs cs'
  simp [GraphNode.relevanceVal, GraphNode.relevance]

/-- Helper for tokenization: split a character list on whitespace runs,
discarding empty pieces, with an accumulator for the current word
(reversed).  This is the semantics of the Python str.split method with no
arguments. -/
def splitWhitespaceAux : List Char → List Char → List String
  | [], acc => if acc.isEmpty then [] else [String.mk acc.reverse]
  | c :: rest, acc =>
    if c.isWhitespace then
      (if acc.isEmpty then [] else [String.mk acc.reverse]) ++
        splitWhitespaceAux rest []
    else splitWhitespaceAux rest (c :: acc)

/-- Tokenization used by NodeChatService._calculate_relevance: the
Python expression set(text.lower().split()) lower-cases the text, splits
it on whitespace runs discarding empty pieces, and collects the distinct
tokens.  Char.toLower agrees with the Python lower casing and
Char.isWhitespace with the Python whitespace set on ASCII text, the
intended alphabet. -/
def tokenize (s : String) : Finset String :=
  (splitWhitespaceAux (s.data.map Char.toLower) []).toFinset

/-- Banker rounding (round half to even) of a rational to an integer,
the semantics of the Python round function, computed by integer
arithmetic on the reduced fraction: with f the floor of q, the
fractional part compares to one half as 2*(num - f*den) compares to den.
Python rounds the nearest binary float; on exactly representable
quotients this agrees with exact rational rounding, and float
representation effects are outside this model. -/
def roundHalfEven (q : ℚ) : ℤ :=
  let f := q.num.fdiv (q.den : ℤ)
  let twice := 2 * (q.num - f * (q.den : ℤ))
  if twice < (q.den : ℤ) then f
  else if (q.den : ℤ) < twice then f + 1
  else if f % 2 = 0 then f else f + 1

/-- Rounding to two decimal places, the semantics of round(x, 2): scale
by 100 exactly, round half to even, and divide back by 100. -/
def roundTo2 (q : ℚ) : ℚ :=
  mkRat (roundHalfEven (mkRat (q.num * 100) q.den)) 100

/-- Translation of NodeChatService._calculate_relevance
(node_chat_service.py lines 272-286): word-level Jaccard similarity of
the lower-cased whitespace-tokenized query and of
title-space-description, rounded to 2 decimals, with a default of 0.5
when the union is empty. -/
def calculate_relevance (title description query : String) : ℚ :=
  let query_terms := tokenize query
  let node_terms := tokenize (title ++ " " ++ description)
  let intersection := (query_terms ∩ node_terms).card
  let union := (query_terms ∪ node_terms).card
  if union = 0 then mkRat 1 2
  else roundTo2 (mkRat (intersection : Int) union)

/-- RelatedNode models the dictionaries appended to related_nodes by
NodeChatService._find_related_nodes. -/
structure RelatedNode where
  id : String
  title : String
  relevance : ℚ

mutual
/-- Translation of the inner helper search_graph of
NodeChatService._find_related_nodes (node_chat_service.py lines 244-263),
as the list of entries it appends: when the visited node is the target
the local found parameter is assigned True and the function returns
immediately (collecting nothing and skipping the children); otherwise an
entry is collected when the found parameter is true and the level is
positive, and the children are visited with the unchanged found
parameter.  Python passes the boolean by value, so the assignment inside
the target's frame is invisible to every other call. -/
def search_graph (node_id query : String) :
    GraphNode → Nat → Bool → List RelatedNode
  | .mk i t d _ _ cs, level, found =>
    if i = node_id then []
    else
      (if found ∧ level > 0 then
        [⟨i, t, calculate_relevance t d query⟩]
      else []) ++
      search_graph_children node_id query cs (level + 1) found
/-- Loop over node["children"] inside search_graph. -/
def search_graph_children (node_id query : String) :
    List GraphNode → Nat → Bool → List RelatedNode
  | [], _, _ => []
  | c :: cs, level, found =>
    search_graph node_id query c level found ++
    search_graph_children node_id query cs level found
end

/-- Stable descending insertion into a list sorted by relevance,
modelling one step of Python list.sort(key=relevance, reverse=True). -/
def insertByRelevanceDesc (x : RelatedNode) : List RelatedNode → List RelatedNode
  | [] => [x]
  | y :: ys =>
    if y.relevance < x.relevance then x :: y :: ys
    else y :: insertByRelevanceDesc x ys

/-- Stable descending sort by relevance, modelling the call
related_nodes.sort(key=..., reverse=True) with the relevance entry as the
key; the Python sort is stable and reverse=True preserves the original
order of equal keys. -/
def sortByRelevanceDesc : List RelatedNode → List RelatedNode
  | [] => []
  | x :: xs => insertByRelevanceDesc x (sortByRelevanceDesc xs)

/-- Translation of NodeChatService._find_related_nodes
(node_chat_service.py lines 239-270): run search_graph from the root with
level 0 and found False, sort the collected list by relevance descending
and keep the first three entries. -/
def find_related_nodes (graph : GraphNode) (node_id query : String) :
    List RelatedNode :=
  (sortByRelevanceDesc (search_graph node_id query graph 0 false)).take 3

/-- Json models the Python values produced by json.loads: null, booleans,
numbers (the generated graphs carry only integers), strings, arrays and
objects (dicts as ordered association lists; Python dicts cannot repeat a
key, so lookup by first match is faithful). -/
inductive Json where
  | null
  | bool (b : Bool)
  | num (n : Int)
  | str (s : String)
  | arr (elems : List Json)
  | obj (fields : List (String × Json))

/-- ModelOutcome models one call to the completion black box: either the
call raises (network or API failure) or it returns a text. -/
inductive ModelOutcome where
  | raises
  | returns (text : List Char)

/-- Index of the first occurrence of a character, the semantics of the
Python str.find method (None standing for -1). -/
def findCharIdx (c : Char) : List Char → Option Nat
  | [] => none
  | x :: xs =>
    if x = c then some 0
    else (findCharIdx c xs).map (fun k => k + 1)

/-- Index of the last occurrence of a character, the semantics of the
Python str.rfind method (None standing for -1). -/
def rfindCharIdx (c : Char) (s : List Char) : Option Nat :=
  (findCharIdx c s.reverse).map (fun k => s.length - 1 - k)

/-- Substring from the first open brace to the last close brace, the span
handed to json.loads by both RAGService.generate_layered_graph (lines
199-203) and NodeQuizService._extract_json (lines 199-204): json_start is
the first index of an open brace, json_end is the last index of a close
brace plus one, and the span exists when json_start is non-negative and
json_end exceeds json_start. -/
def extract_json_span (s : List Char) : Option (List Char) :=
  match findCharIdx '{' s, rfindCharIdx '}' s with
  | some i, some j => if i < j + 1 then some ((s.drop i).take (j + 1 - i)) else none
  | some _, none => none
  | none, _ => none

/-- Translation of RAGService._generate_fallback_graph (rag_service.py
lines 237-347): the fixed fallback tree whose root title echoes the
query.  Note that the id implementation occurs twice in the source
literal: as a layer-1 child and again as that child's own layer-2 child. -/
def generate_fallback_graph (query : String) : GraphNode :=
  .mk "root" query "Decision analysis based on the St. Gallen Management Model"
    (some 0) (some 10)
    [ .mk "env_analysis" "Environmental & Stakeholder Analysis"
        "Analysis of external factors and stakeholders" (some 1) (some 8)
        [ .mk "external_factors" "External Factors"
            "Consider technological, economic, and social influences"
            (some 2) (some 7) [],
          .mk "stakeholders" "Stakeholder Mapping"
            "Identify and analyze key stakeholders" (some 2) (some 7) [] ],
      .mk "strategy" "Strategy & Business Model"
        "Strategic considerations and business model design" (some 1) (some 9)
        [ .mk "value_prop" "Value Proposition"
            "Define the unique value offering" (some 2) (some 8) [],
          .mk "comp_advantage" "Competitive Advantage"
            "Identify sustainable competitive advantages" (some 2) (some 8) [] ],
      .mk "organization" "Organizational Structure & Processes"
        "Internal organizational considerations" (some 1) (some 7)
        [ .mk "structure" "Organizational Structure"
            "Design appropriate organizational structures" (some 2) (some 6) [],
          .mk "processes" "Management Processes"
            "Establish effective management processes" (some 2) (some 6) [] ],
      .mk "implementation" "Implementation & Development"
        "Approaches to implementation and change management" (some 1) (some 8)
        [ .mk "change_mgmt" "Change Management"
            "Manage organizational change effectively" (some 2) (some 7) [],
          .mk "implementation" "Implementation Approach"
            "Plan the implementation strategy" (some 2) (some 7) [] ] ]

/-- Json value of an optional integer field. -/
def jsonOfOptInt : Option Int → Json
  | some n => .num n
  | none => .null

mutual
/-- Json encoding of a graph node dictionary, used to express that the
fallback path of generate_layered_graph returns the fallback dict. -/
def GraphNode.toJson : GraphNode → Json
  | .mk i t d l r cs =>
    .obj [("id", .str i), ("title", .str t), ("description", .str d),
      ("layer", jsonOfOptInt l), ("relevance", jsonOfOptInt r),
      ("children", .arr (GraphNode.toJsonL cs))]
/-- Json encoding of a list of graph nodes. -/
def GraphNode.toJsonL : List GraphNode → List Json
  | [] => []
  | c :: cs => GraphNode.toJson c :: GraphNode.toJsonL cs
end

/-- Translation of RAGService.generate_layered_graph (rag_service.py
lines 57-219).  The retrieval, prompt construction and completion call
only shape the text handed back by the model; they are modelled by the
completion outcome parameter.  The json.loads black box is modelled by
the parse parameter (None standing for a JSONDecodeError); a span that
starts with an open brace and ends with a close brace can only decode to
a dict, so parse yields the association list of the decoded object.  On
a raised completion, a missing brace span, or a decode failure, the
method returns the fallback graph and an empty connections list;
otherwise the graph and connections entries of the decoded object are
resolved (lines 207-212). -/
def generate_layered_graph
    (parse : List Char → Option (List (String × Json)))
    (outcome : ModelOutcome) (query : String) : Json × Json :=
  match outcome with
  | .raises => (GraphNode.toJson (generate_fallback_graph query), .arr [])
  | .returns text =>
    match extract_json_span text with
    | none => (GraphNode.toJson (generate_fallback_graph query), .arr [])
    | some span =>
      match parse span with
      | none => (GraphNode.toJson (generate_fallback_graph query), .arr [])
      | some response_data =>
        match response_data.lookup "graph", response_data.lookup "connections" with
        | some g, some c => (g, c)
        | some g, none => (g, .arr [])
        | none, _ => (.obj response_data, .arr [])

/-- Translation of NodeQuizService._extract_json (node_quiz_service.py
lines 187-208): take the first-open-brace to last-close-brace span and
decode it, returning the empty dict when the span is missing or the
decoder raises a JSONDecodeError. -/
def extract_json (parse : List Char → Option (List (String × Json)))
    (text : List Char) : List (String × Json) :=
  match extract_json_span text with
  | none => []
  | some span =>
    match parse span with
    | some d => d
    | none => []

/-- Placeholder question literal of NodeQuizService._create_fallback_quiz
(node_quiz_service.py lines 249-262). -/
def placeholder_question : Json :=
  .obj [("question", .str "What is the main concept described in this node?"),
    ("options", .obj [("A", .str "Option A"), ("B", .str "Option B"),
      ("C", .str "Option C"), ("D", .str "Option D")]),
    ("correct_answer", .str "A"),
    ("explanation",
      .str "This is a placeholder question. The quiz generation failed.")]

/-- Template structure returned by NodeQuizService._create_fallback_quiz
when the simplified retry also fails to produce a questions key. -/
def placeholder_quiz : Json :=
  .obj [("questions", .arr [placeholder_question]),
    ("error", .str "Failed to generate custom quiz questions. Using placeholder.")]

/-- Translation of NodeQuizService._create_fallback_quiz
(node_quiz_service.py lines 210-267): call the model once more with a
simplified prompt (the prompt text only shapes the reply and is modelled
by the outcome parameter); if the reply decodes to a non-empty dict with
a questions key return it, otherwise return the placeholder template; if
the model call itself raises return the dict with only the error entry. -/
def create_fallback_quiz (parse : List Char → Option (List (String × Json)))
    (retry : ModelOutcome) : Json :=
  match retry with
  | .raises => .obj [("error", .str "Quiz generation failed completely")]
  | .returns text =>
    let quiz_data := extract_json parse text
    if (¬ quiz_data.isEmpty) && (quiz_data.lookup "questions").isSome then
      .obj quiz_data
    else placeholder_quiz

/-- Translation of NodeQuizService._generate_questions
(node_quiz_service.py lines 128-185): call the model (first outcome); on
a raised call, or a reply whose extracted dict is empty or lacks a
questions key, delegate to _create_fallback_quiz (second outcome);
otherwise return the decoded dict. -/
def generate_questions (parse : List Char → Option (List (String × Json)))
    (first retry : ModelOutcome) : Json :=
  match first with
  | .raises => create_fallback_quiz parse retry
  | .returns text =>
    let quiz_data := extract_json parse text
    if quiz_data.isEmpty || (quiz_data.lookup "questions").isNone then
      create_fallback_quiz parse retry
    else .obj quiz_data

/-- Lookup of a top-level key in a Json object, used to state properties
of the returned quiz dictionaries. -/
def Json.getField : Json → String → Option Json
  | .obj fields, k => fields.lookup k
  | _, _ => none

theorem filter_children_by_layer_eq_pruneL (L : Int) (cs : List GraphNode) :
    filter_children_by_layer cs L =
      pruneL (fun m => decide (m.layerVal ≤ L)) cs := by
  induction cs with
  | nil => rfl
  | cons c cs1 ih =>
    simp only [filter_children_by_layer, pruneL,
      filter_graph_by_layer_eq_prune L c, ih]

theorem filter_children_by_relevance_eq_pruneL (minRel : Int) (cs : List GraphNode) :
    filter_children_by_relevance cs minRel =
      pruneL (fun m => decide (minRel ≤ m.relevanceVal)) cs := by
  induction cs with
  | nil => rfl
  | cons c cs1 ih =>
    simp only [filter_children_by_relevance, pruneL,
      filter_graph_by_relevance_eq_prune minRel c, ih]

/-- Sample tree for witnesses: root at layer 0, one child at layer 2
whose own child is back at layer 1, and one child at layer 1. -/
def sampleLayerTree : GraphNode :=
  .mk "r" "Root" "root description" (some 0) (some 10)
    [ .mk "a" "A" "first branch" (some 2) (some 9)
        [ .mk "a1" "A1" "deep node" (some 1) (some 9) [] ],
      .mk "b" "B" "second branch" (some 1) (some 8) [] ]

/-- C4: for every tree and integer maxLayer, the layer filter returns
None exactly when the root layer exceeds maxLayer, and otherwise returns
the root with its children recursively filtered, such that every node of
the result is within the threshold and an id appears in the result
exactly when some node carrying it is reachable through a chain of nodes
that all pass the layer predicate - so no descendant of a dropped node
survives, even when its own layer is within the threshold. -/
theorem filter_by_layer_correct (T : GraphNode) (L : Int) :
    (T.layerVal > L → filter_graph_by_layer T L = none) ∧
    (T.layerVal ≤ L → ∃ res, filter_graph_by_layer T L = some res ∧
      res.id = T.id ∧ res.title = T.title ∧
      res.children = filter_children_by_layer T.children L ∧
      (∀ m ∈ subtreeNodes res, m.layerVal ≤ L) ∧
      (∀ s, s ∈ subtreeIds res ↔
        ∃ p m, Chain T p m ∧ m.id = s ∧ ∀ x ∈ p, x.layerVal ≤ L)) := by
  constructor
  · intro hgt
    cases T with
    | mk i t d l r cs =>
      simp only [GraphNode.layerVal, GraphNode.layer] at hgt
      simp [filter_graph_by_layer, hgt]
  · intro hle
    have hkeep : (fun m => decide (m.layerVal ≤ L)) T = true := by
      simp [hle]
    have heq := filter_graph_by_layer_eq_prune L T
    have hsome := @prune_some_of_keep (fun m => decide (m.layerVal ≤ L)) T hkeep
    refine ⟨_, heq.trans hsome, ?_, ?_, ?_, ?_, ?_⟩
    · cases T with
      | mk i t d l r cs => simp [GraphNode.id]
    · cases T with
      | mk i t d l r cs => simp [GraphNode.title]
    · cases T with
      | mk i t d l r cs =>
        simp only [GraphNode.children]
        exact (filter_children_by_layer_eq_pruneL L cs).symm
    · intro m hm
      have := prune_subtree_keep (layer_keep_field_pred L) T _ hsome m hm
      simpa using this
    · intro s
      constructor
      · intro hs
        rcases prune_ids_complete T _ hsome s hs with ⟨p, m, hch, hid, hall⟩
        exact ⟨p, m, hch, hid, fun x hx => by simpa using hall x hx⟩
      · rintro ⟨p, m, hch, hid, hall⟩
        rw [← hid]
        exact prune_ids_sound hch (fun x hx => by simp [hall x hx]) _ hsome

/-- Witness for C4 at the sample tree and maxLayer 1. -/
theorem filter_by_layer_correct_witness :
    GraphNode.layerVal sampleLayerTree ≤ 1 ∧
    (∃ res, filter_graph_by_layer sampleLayerTree 1 = some res ∧
      res.id = sampleLayerTree.id ∧ res.title = sampleLayerTree.title ∧
      res.children = filter_children_by_layer sampleLayerTree.children 1 ∧
      (∀ m ∈ subtreeNodes res, m.layerVal ≤ 1) ∧
      (∀ s, s ∈ subtreeIds res ↔
        ∃ p m, Chain sampleLayerTree p m ∧ m.id = s ∧
          ∀ x ∈ p, x.layerVal ≤ 1)) :=
  ⟨by decide, (filter_by_layer_correct sampleLayerTree 1).2 (by decide)⟩

/-- C5: the layer filter is idempotent; applying it a second time with
the same threshold (through Option.bind, since the first application may
return None) returns the first result unchanged. -/
theorem filter_by_layer_idempotent (T : GraphNode) (L : Int) :
    (filter_graph_by_layer T L).bind
      (fun res => filter_graph_by_layer res L) =
    filter_graph_by_layer T L := by
  cases h : filter_graph_by_layer T L with
  | none => rfl
  | some res =>
    show filter_graph_by_layer res L = some res
    rw [filter_graph_by_layer_eq_prune] at h ⊢
    exact prune_idem (layer_keep_field_pred L) T res h

/-- Sample tree for the relevance-filter scenario of the specification:
a root of relevance 10 with children of relevance 3 and 7, the
relevance-3 child owning a relevance-9 descendant. -/
def sampleRelevanceTree : GraphNode :=
  .mk "r" "Root" "root node" (some 0) (some 10)
    [ .mk "a" "A" "weak branch" (some 1) (some 3)
        [ .mk "a1" "A1" "strong descendant" (some 2) (some 9) [] ],
      .mk "b" "B" "strong branch" (some 1) (some 7) [] ]

/-- C6: the relevance filter keeps exactly the nodes whose relevance
reaches the threshold, dropping a failing node with its entire subtree;
get_filtered_graph defaults the threshold to 5 when the context
parameters supply no min_relevance entry; and on a root of relevance 10
with children of relevance 3 and 7, filtering at the default threshold
keeps the root and the relevance-7 child and drops the relevance-3 child
together with its whole subtree. -/
theorem filter_by_relevance_correct :
    (∀ T minRel, (∀ m ∈ subtreeNodes T, ¬ m.relevance = none) →
      (minRel ≤ T.relevanceVal →
        ∃ res, filter_graph_by_relevance T minRel = some res ∧
          res.id = T.id ∧
          res.children = filter_children_by_relevance T.children minRel ∧
          (∀ m ∈ subtreeNodes res, minRel ≤ m.relevanceVal) ∧
          (∀ s, s ∈ subtreeIds res ↔
            ∃ p m, Chain T p m ∧ m.id = s ∧ ∀ x ∈ p, minRel ≤ x.relevanceVal)) ∧
      (T.relevanceVal < minRel → filter_graph_by_relevance T minRel = none)) ∧
    (∀ T cp, (cp = none ∨ ∃ ps, cp = some ps ∧ ps.lookup "min_relevance" = none) →
      get_filtered_graph T cp = filter_graph_by_relevance T 5) ∧
    (get_filtered_graph sampleRelevanceTree none =
      some (.mk "r" "Root" "root node" (some 0) (some 10)
        [ .mk "b" "B" "strong branch" (some 1) (some 7) [] ])) := by
  refine ⟨?_, ?_, ?_⟩
  · intro T minRel hall
    constructor
    · intro hle
      have hkeep : (fun m => decide (minRel ≤ m.relevanceVal)) T = true := by
        simp [hle]
      have heq := filter_graph_by_relevance_eq_prune minRel T
      have hsome := @prune_some_of_keep (fun m => decide (minRel ≤ m.relevanceVal)) T hkeep
      refine ⟨_, heq.trans hsome, ?_, ?_, ?_, ?_⟩
      · cases T with
        | mk i t d l r cs => simp [GraphNode.id]
      · cases T with
        | mk i t d l r cs =>
          simp only [GraphNode.children]
          exact (filter_children_by_relevance_eq_pruneL minRel cs).symm
      · intro m hm
        have := prune_subtree_keep (relevance_keep_field_pred minRel) T _ hsome m hm
        simpa using this
      · intro s
        constructor
        · intro hs
          rcases prune_ids_complete T _ hsome s hs with ⟨p, m, hch, hid, hall'⟩
          exact ⟨p, m, hch, hid, fun x hx => by simpa using hall' x hx⟩
        · rintro ⟨p, m, hch, hid, hall'⟩
          rw [← hid]
          exact prune_ids_sound hch (fun x hx => by simp [hall' x hx]) _ hsome
    · intro hlt
      cases T with
      | mk i t d l r cs =>
        simp only [GraphNode.relevanceVal, GraphNode.relevance] at hlt
        simp [filter_graph_by_relevance, hlt]
  · intro T cp hcp
    rcases hcp with h | ⟨ps, hps, hlk⟩
    · subst h; rfl
    · subst hps
      simp [get_filtered_graph, hlk]
  · rfl

/-- Witness for C6 at the sample relevance tree with threshold 5 and
absent context parameters. -/
theorem filter_by_relevance_correct_witness :
    ((∀ m ∈ subtreeNodes sampleRelevanceTree, ¬ m.relevance = none) ∧
      (5 : Int) ≤ sampleRelevanceTree.relevanceVal ∧
      (∃ res, filter_graph_by_relevance sampleRelevanceTree 5 = some res ∧
        res.id = sampleRelevanceTree.id ∧
        res.children = filter_children_by_relevance sampleRelevanceTree.children 5 ∧
        (∀ m ∈ subtreeNodes res, (5 : Int) ≤ m.relevanceVal) ∧
        (∀ s, s ∈ subtreeIds res ↔
          ∃ p m, Chain sampleRelevanceTree p m ∧ m.id = s ∧
            ∀ x ∈ p, (5 : Int) ≤ x.relevanceVal))) ∧
    get_filtered_graph sampleRelevanceTree none =
      filter_graph_by_relevance sampleRelevanceTree 5 :=
  ⟨⟨by decide, by decide,
    ((filter_by_relevance_correct.1 sampleRelevanceTree 5 (by decide)).1 (by decide))⟩,
    filter_by_relevance_correct.2.1 sampleRelevanceTree none (Or.inl rfl)⟩

/-- C10: the two filters treat a missing score field asymmetrically: a
node without a layer key is treated as layer 0 and passes the layer
filter for every non-negative maxLayer, while a node without a relevance
key is treated as relevance 0 and is dropped with its entire subtree by
the relevance filter whenever the threshold is at least 1, in particular
through get_filtered_graph at the default threshold 5. -/
theorem missing_field_asymmetry :
    (∀ n L, n.layer = none → (0 : Int) ≤ L →
      ∃ res, filter_graph_by_layer n L = some res) ∧
    (∀ n minRel, n.relevance = none → (1 : Int) ≤ minRel →
      filter_graph_by_relevance n minRel = none) ∧
    (∀ n, n.relevance = none → get_filtered_graph n none = none) := by
  have hrel : ∀ n minRel, n.relevance = none → (1 : Int) ≤ minRel →
      filter_graph_by_relevance n minRel = none := by
    intro n minRel hr hge
    cases n with
    | mk i t d l r cs =>
      simp only [GraphNode.relevance] at hr
      subst hr
      have h0 : (0 : Int) < minRel := by omega
      simp [filter_graph_by_relevance, h0]
  refine ⟨?_, hrel, ?_⟩
  · intro n L hl hge
    cases n with
    | mk i t d l r cs =>
      simp only [GraphNode.layer] at hl
      subst hl
      have h0 : ¬ (L < 0) := by omega
      simp [filter_graph_by_layer, h0]
  · intro n hr
    have : get_filtered_graph n none = filter_graph_by_relevance n 5 := rfl
    rw [this]
    exact hrel n 5 hr (by omega)

/-- Witness for C10 at a node whose layer and relevance keys are both
absent. -/
theorem missing_field_asymmetry_witness :
    ((GraphNode.mk "x" "T" "D" none none []).layer = none ∧
      (∃ res, filter_graph_by_layer (.mk "x" "T" "D" none none []) 0 = some res)) ∧
    ((GraphNode.mk "x" "T" "D" none none []).relevance = none ∧
      filter_graph_by_relevance (.mk "x" "T" "D" none none []) 5 = none ∧
      get_filtered_graph (.mk "x" "T" "D" none none []) none = none) :=
  ⟨⟨rfl, missing_field_asymmetry.1 (.mk "x" "T" "D" none none []) 0 rfl (by omega)⟩,
    ⟨rfl, missing_field_asymmetry.2.1 (.mk "x" "T" "D" none none []) 5 rfl (by omega),
      missing_field_asymmetry.2.2 (.mk "x" "T" "D" none none []) rfl⟩⟩

/-- C3: in a tree with unique node ids, looking up the id of a node N
reachable through the ancestor chain p returns N itself, the full chain
from the root to N (starting at the root and ending at N) and the depth
of N (the root having depth 0); looking up an id absent from every node
of the tree returns None. -/
theorem extract_node_details_correct :
    (∀ T p N, (subtreeIds T).Nodup → Chain T p N →
      extract_node_details T N.id = some ⟨N, p, p.length - 1⟩ ∧
      p.head? = some T ∧ p.getLast? = some N) ∧
    (∀ T tid, (∀ m ∈ subtreeNodes T, ¬ m.id = tid) →
      extract_node_details T tid = none) := by
  constructor
  · intro T p N hnd hch
    refine ⟨?_, hch.head_eq, hch.getLast_eq⟩
    induction hch with
    | refl n =>
      cases n with
      | mk i t d l r cs =>
        simp [extract_node_details, GraphNode.id]
    | step n c p' m hc hch' ih =>
      clear ih
      cases n with
      | mk i t d l r cs =>
        have hme : m ∈ subtreeNodes c := hch'.mem_subtree
        have hmidin : m.id ∈ (subtreeNodesL cs).map GraphNode.id :=
          List.mem_map.mpr ⟨m,
            mem_subtreeNodesL_of_mem (by simpa [GraphNode.children] using hc) hme, rfl⟩
        have hids : subtreeIds (GraphNode.mk i t d l r cs) =
            i :: (subtreeNodesL cs).map GraphNode.id := by
          simp [subtreeIds, subtreeNodes, GraphNode.id]
        rw [hids, List.nodup_cons] at hnd
        have hne : ¬ ((GraphNode.mk i t d l r cs).id = m.id) := by
          simp only [GraphNode.id]
          exact fun h => hnd.1 (h ▸ hmidin)
        have hfind := find_node_chain (Chain.step _ c p' m hc hch')
          (by rw [hids, List.nodup_cons]; exact hnd) [] 0
        simp only [extract_node_details, if_neg hne]
        rw [hfind]
        simp
  · intro T tid habs
    have hroot : ¬ (T.id = tid) := habs T (self_mem_subtreeNodes T)
    simp only [extract_node_details, if_neg hroot]
    exact find_node_none T habs [] 0

/-- Witness for C3 at the sample tree: looking up the first child. -/
theorem extract_node_details_correct_witness :
    ((subtreeIds sampleLayerTree).Nodup ∧
      extract_node_details sampleLayerTree
          (GraphNode.mk "a" "A" "first branch" (some 2) (some 9)
            [ .mk "a1" "A1" "deep node" (some 1) (some 9) [] ]).id =
        some ⟨.mk "a" "A" "first branch" (some 2) (some 9)
            [ .mk "a1" "A1" "deep node" (some 1) (some 9) [] ],
          [sampleLayerTree,
            .mk "a" "A" "first branch" (some 2) (some 9)
              [ .mk "a1" "A1" "deep node" (some 1) (some 9) [] ]],
          1⟩) ∧
    ((∀ m ∈ subtreeNodes sampleLayerTree, ¬ m.id = "zzz") ∧
      extract_node_details sampleLayerTree "zzz" = none) :=
  ⟨⟨by decide,
    (extract_node_details_correct.1 sampleLayerTree
      [sampleLayerTree,
        .mk "a" "A" "first branch" (some 2) (some 9)
          [ .mk "a1" "A1" "deep node" (some 1) (some 9) [] ]]
      (.mk "a" "A" "first branch" (some 2) (some 9)
        [ .mk "a1" "A1" "deep node" (some 1) (some 9) [] ])
      (by decide)
      (Chain.step _ _ _ _ (List.mem_cons_self _ _) (Chain.refl _))).1⟩,
    ⟨by decide,
      extract_node_details_correct.2 sampleLayerTree "zzz" (by decide)⟩⟩

theorem search_graph_false_empty (node_id query : String) :
    ∀ n level, search_graph node_id query n level false = [] := by
  intro n
  induction n using GraphNode.inductionOn with
  | h i t d l r cs ih =>
    intro level
    have hcs : ∀ lv, search_graph_children node_id query cs lv false = [] := by
      induction cs with
      | nil => intro lv; rfl
      | cons c cs' ihl =>
        intro lv
        have h1 := ih c (List.mem_cons_self c cs') lv
        have h2 := ihl (fun c' hc' => ih c' (List.mem_cons_of_mem c hc'))
        simp only [search_graph_children, h1, h2 lv, List.append_nil]
    by_cases hid : i = node_id
    · simp [search_graph, hid]
    · simp [search_graph, hid, hcs]

/-- C1 (code bug): the related-node search of the node chat returns the
empty list for every graph, target node id and query.  The local found
flag of search_graph is a Python boolean passed by value: the only
assignment to it happens in the stack frame of the target node itself,
which returns immediately, so no caller and no sibling ever observes a
True value and nothing is ever collected, contradicting the documented
intent of scoring the nodes visited after the target. -/
theorem find_related_nodes_always_empty (graph : GraphNode)
    (node_id query : String) :
    find_related_nodes graph node_id query = [] := by
  unfold find_related_nodes
  rw [search_graph_false_empty]
  rfl

/-- C7 (code bug): the fallback tree of RAGService contains the id
implementation twice - the layer-1 node titled Implementation &
Development and its own layer-2 child titled Implementation Approach -
so the id-uniqueness invariant fails on a graph the core itself
produces: the count of that id is 2 and the id list of the fallback tree
has a duplicate. -/
theorem generate_fallback_graph_duplicate_id :
    (subtreeIds (generate_fallback_graph "q")).count "implementation" = 2 ∧
    ¬ (subtreeIds (generate_fallback_graph "q")).Nodup := by
  constructor
  · decide
  · decide

/-- C8: the related-node relevance score is the word-level Jaccard
similarity of the lower-cased whitespace token sets of
title-space-description and of the query, as the ratio of the
intersection and union cardinalities rounded to 2 decimal places; it is
0.5 when the union is empty; and a node with combined tokens good and
apple scores 0.5 against the query apple. -/
theorem calculate_relevance_jaccard :
    (∀ t d q, (tokenize q ∪ tokenize (t ++ " " ++ d)).card = 0 →
      calculate_relevance t d q = 1/2) ∧
    (∀ t d q, ¬ (tokenize q ∪ tokenize (t ++ " " ++ d)).card = 0 →
      calculate_relevance t d q =
        roundTo2 (mkRat ((tokenize q ∩ tokenize (t ++ " " ++ d)).card : Int)
          ((tokenize q ∪ tokenize (t ++ " " ++ d)).card))) ∧
    calculate_relevance "good" "apple" "apple" = 1/2 := by
  refine ⟨?_, ?_, ?_⟩
  · intro t d q h
    simp only [calculate_relevance, h, if_pos]
    rw [Rat.mkRat_eq_divInt, Rat.divInt_eq_div]
    norm_num
  · intro t d q h
    simp only [calculate_relevance, if_neg h]
  · have h : calculate_relevance "good" "apple" "apple" = mkRat 1 2 := by decide
    rw [h, Rat.mkRat_eq_divInt, Rat.divInt_eq_div]
    norm_num

/-- Witness for C8: empty strings give an empty union, and the sample
score is evaluated. -/
theorem calculate_relevance_jaccard_witness :
    ((tokenize "" ∪ tokenize ("" ++ " " ++ "")).card = 0 ∧
      calculate_relevance "" "" "" = 1/2) ∧
    (¬ (tokenize "apple" ∪ tokenize ("good" ++ " " ++ "apple")).card = 0 ∧
      calculate_relevance "good" "apple" "apple" =
        roundTo2 (mkRat ((tokenize "apple" ∩ tokenize ("good" ++ " " ++ "apple")).card : Int)
          ((tokenize "apple" ∪ tokenize ("good" ++ " " ++ "apple")).card))) :=
  ⟨⟨by decide, calculate_relevance_jaccard.1 "" "" "" (by decide)⟩,
    ⟨by decide, calculate_relevance_jaccard.2.1 "good" "apple" "apple" (by decide)⟩⟩

/-- C2: whenever the completion call raises, or its output has no brace
span, or the brace span fails to decode, generate_layered_graph returns
the fixed fallback pair: the fallback tree (root id root, root title
equal to the query, layer 0, relevance 10, and exactly the four
top-level children env_analysis, strategy, organization, implementation)
together with an empty connections list; being a total function, the
embedded synthesis never raises to its caller. -/
theorem generate_layered_graph_fallback :
    ∀ parse (q : String) outcome,
      (outcome = ModelOutcome.raises ∨
        ∃ text, outcome = ModelOutcome.returns text ∧
          (extract_json_span text = none ∨
            ∃ span, extract_json_span text = some span ∧ parse span = none)) →
      generate_layered_graph parse outcome q =
        (GraphNode.toJson (generate_fallback_graph q), Json.arr []) ∧
      (generate_fallback_graph q).id = "root" ∧
      (generate_fallback_graph q).title = q ∧
      (generate_fallback_graph q).layer = some 0 ∧
      (generate_fallback_graph q).relevance = some 10 ∧
      ((generate_fallback_graph q).children).map GraphNode.id =
        ["env_analysis", "strategy", "organization", "implementation"] := by
  intro parse q outcome h
  refine ⟨?_, rfl, rfl, rfl, rfl, rfl⟩
  rcases h with h | ⟨text, ht, h⟩
  · subst h; rfl
  · subst ht
    rcases h with h | ⟨span, hs, hp⟩
    · simp [generate_layered_graph, h]
    · simp [generate_layered_graph, hs, hp]

/-- Witness for C2: a parser that always fails and a raising completion. -/
theorem generate_layered_graph_fallback_witness :
    generate_layered_graph (fun _ => none) ModelOutcome.raises "How should we grow?" =
      (GraphNode.toJson (generate_fallback_graph "How should we grow?"), Json.arr []) ∧
    (generate_fallback_graph "How should we grow?").id = "root" ∧
    (generate_fallback_graph "How should we grow?").title = "How should we grow?" ∧
    (generate_fallback_graph "How should we grow?").layer = some 0 ∧
    (generate_fallback_graph "How should we grow?").relevance = some 10 ∧
    ((generate_fallback_graph "How should we grow?").children).map GraphNode.id =
      ["env_analysis", "strategy", "organization", "implementation"] :=
  generate_layered_graph_fallback (fun _ => none) "How should we grow?"
    ModelOutcome.raises (Or.inl rfl)

/-- quiz_reply_fails states the failure condition checked by
_generate_questions and _create_fallback_quiz on a returned reply text:
the extracted dict is empty (falsy in Python) or has no questions key. -/
def quiz_reply_fails (parse : List Char → Option (List (String × Json)))
    (text : List Char) : Prop :=
  extract_json parse text = [] ∨
    ((extract_json parse text).lookup "questions") = none

theorem create_fallback_quiz_placeholder {parse : List Char → Option (List (String × Json))}
    {t : List Char} (h : quiz_reply_fails parse t) :
    create_fallback_quiz parse (.returns t) = placeholder_quiz := by
  rcases h with h | h <;> simp [create_fallback_quiz, h]

theorem generate_questions_delegates {parse : List Char → Option (List (String × Json))}
    {t : List Char} {retry : ModelOutcome} (h : quiz_reply_fails parse t) :
    generate_questions parse (.returns t) retry = create_fallback_quiz parse retry := by
  rcases h with h | h <;> simp [generate_questions, h]

/-- C9: when both the first reply and the simplified retry fail JSON
extraction or lack a questions key, generate_quiz returns (without
raising - the embedding is a total function) the placeholder object
whose questions list holds exactly one placeholder question and whose
error field is a non-empty string; and when the first attempt has
failed and the retry call itself raises, it returns the object with only
the error entry Quiz generation failed completely and no questions key. -/
theorem generate_quiz_error_handling :
    (∀ parse t1 t2, quiz_reply_fails parse t1 → quiz_reply_fails parse t2 →
      generate_questions parse (.returns t1) (.returns t2) = placeholder_quiz ∧
      Json.getField placeholder_quiz "questions" =
        some (.arr [placeholder_question]) ∧
      ∃ e, Json.getField placeholder_quiz "error" = some (.str e) ∧ ¬ e = "") ∧
    (∀ parse first, (first = ModelOutcome.raises ∨
        ∃ t, first = ModelOutcome.returns t ∧ quiz_reply_fails parse t) →
      generate_questions parse first ModelOutcome.raises =
        Json.obj [("error", Json.str "Quiz generation failed completely")] ∧
      Json.getField
        (Json.obj [("error", Json.str "Quiz generation failed completely")])
        "questions" = none) := by
  constructor
  · intro parse t1 t2 h1 h2
    refine ⟨?_, rfl, ⟨_, rfl, by decide⟩⟩
    rw [generate_questions_delegates h1, create_fallback_quiz_placeholder h2]
  · intro parse first h
    refine ⟨?_, rfl⟩
    rcases h with h | ⟨t, ht, hfail⟩
    · subst h; rfl
    · subst ht
      rw [generate_questions_delegates hfail]
      rfl

/-- Witness for C9: a parser that always fails, two brace-free replies
and a raising retry. -/
theorem generate_quiz_error_handling_witness :
    (quiz_reply_fails (fun _ => none) ['x'] ∧
      quiz_reply_fails (fun _ => none) ['y'] ∧
      generate_questions (fun _ => none) (.returns ['x']) (.returns ['y']) =
        placeholder_quiz) ∧
    (generate_questions (fun _ => none) (.returns ['x']) ModelOutcome.raises =
      Json.obj [("error", Json.str "Quiz generation failed completely")]) :=
  ⟨⟨Or.inl rfl, Or.inl rfl,
    (generate_quiz_error_handling.1 (fun _ => none) ['x'] ['y']
      (Or.inl rfl) (Or.inl rfl)).1⟩,
    (generate_quiz_error_handling.2 (fun _ => none) (.returns ['x'])
      (Or.inr ⟨['x'], rfl, Or.inl rfl⟩)).1⟩
